import Mathlib

/-!
Verification of the Mavka lapathon runner's evaluation engine.

This file gives a shallow embedding, in Lean 4, of the code under `src/`:

* `src/lib/run_mavka.ts` — test-spec parsing (`parseTestsPlain`, `parseInput`),
  argument formatting (`formatMavkaArgs`) and test execution (`testMavkaCode`);
* `src/lib/extract_llm_code.ts` — `extractCodeFromLLM`;
* `src/lib/call_agent.ts` — `callAgent` and `AgentCallError`;
* `src/index.ts` — the per-run state machine (conflict teaching, generation,
  testing, feedback) and the sequential batch driver;
* the bounded-concurrency scheduler (PQueue with `concurrency: 4`), whose
  implementation is an external library and is therefore modelled from the
  spec as a small-step transition system.

JavaScript numbers are modelled as exact rationals (`ℚ`), with `NaN`
represented as `Option.none` where it can arise (the score of an empty
result list).  JavaScript strings are `String`/`List Char`; the JS string
operations used by the source (`trim`, `split`, `startsWith`, regular
expression matches) are embedded as executable functions on `List Char`.
-/

/-! ### JavaScript string primitives -/

/-- The whitespace class used by JS `String.prototype.trim` and the regex
class `\s` (the code points that actually occur in this code base's data,
plus the common Unicode space characters). -/
def isJsWhitespace (c : Char) : Bool :=
  c == ' ' || c == '\t' || c == '\n' || c == '\r' ||
  c == '\u000B' || c == '\u000C' || c == '\u00A0' ||
  c == '\u2028' || c == '\u2029' || c == '\uFEFF'

/-- JS `String.prototype.trim` on a character list. -/
def jsTrimChars (cs : List Char) : List Char :=
  ((cs.dropWhile isJsWhitespace).reverse.dropWhile isJsWhitespace).reverse

/-- JS `String.prototype.split(sep)` for a single-character separator:
always returns at least one (possibly empty) field. -/
def splitOnChar (sep : Char) : List Char → List (List Char)
  | [] => [[]]
  | c :: rest =>
    let r := splitOnChar sep rest
    if c == sep then [] :: r
    else
      match r with
      | h :: t => (c :: h) :: t
      | [] => [[c]]

/-- `listStartsWith p l` is true when `p` is a prefix of `l`. -/
def listStartsWith : List Char → List Char → Bool
  | [], _ => true
  | _ :: _, [] => false
  | p :: ps, c :: cs => if p = c then listStartsWith ps cs else false

/-- The line-terminator class of JS regexes: the characters that the dot
`.` can NOT match (without the `s` flag): `\n`, `\r`, `\u2028`,
`\u2029`.  All four are also whitespace (`\s`). -/
def isLineTerm (c : Char) : Bool :=
  c == '\n' || c == '\r' || c == '\u2028' || c == '\u2029'

/-- Drop the trailing whitespace run of a list. -/
def dropTrailingWs (l : List Char) : List Char :=
  (l.reverse.dropWhile isJsWhitespace).reverse

/-- The word-character class `\w` of JS regexes: `[A-Za-z0-9_]`. -/
def isWordChar (c : Char) : Bool :=
  (decide ('a' ≤ c ∧ c ≤ 'z')) || (decide ('A' ≤ c ∧ c ≤ 'Z')) ||
  (decide ('0' ≤ c ∧ c ≤ '9')) || c == '_'

/-! ### A model of JS `parseFloat` and number-to-string conversion

`parseFloat` is modelled on the fragment the test corpus uses: optional
sign, decimal digits with an optional fraction and decimal exponent,
trailing garbage ignored.  `NaN` is `none`.  (The special numeral
`"Infinity"` is outside the modelled fragment; float rounding is modelled
exactly, by rationals, which agrees with JS on every comparison the code
performs.) -/

def digitsToNat : List Char → Nat → Nat
  | [], acc => acc
  | c :: rest, acc => digitsToNat rest (acc * 10 + (c.toNat - 48))

/-- Parse an unsigned mantissa `digits[.digits]`; returns the value and the
unconsumed rest.  Fails when there is no digit on either side of the dot. -/
def parseUnsigned (cs : List Char) : Option (ℚ × List Char) :=
  let ip := cs.takeWhile Char.isDigit
  let afterIp := cs.drop ip.length
  match afterIp with
  | '.' :: rest =>
    let fp := rest.takeWhile Char.isDigit
    if ip = [] ∧ fp = [] then none
    else some ((digitsToNat ip 0 : ℚ) + (digitsToNat fp 0 : ℚ) / ((10 : ℚ) ^ fp.length),
               rest.drop fp.length)
  | _ => if ip = [] then none else some ((digitsToNat ip 0 : ℚ), afterIp)

/-- Parse an optional exponent suffix `e[+-]digits`; a malformed exponent is
ignored (as JS does). -/
def parseExponent (cs : List Char) : Option (Bool × Nat) :=
  match cs with
  | c :: rest =>
    if c = 'e' ∨ c = 'E' then
      match rest with
      | '+' :: ds =>
        let d := ds.takeWhile Char.isDigit
        if d = [] then none else some (false, digitsToNat d 0)
      | '-' :: ds =>
        let d := ds.takeWhile Char.isDigit
        if d = [] then none else some (true, digitsToNat d 0)
      | ds =>
        let d := ds.takeWhile Char.isDigit
        if d = [] then none else some (false, digitsToNat d 0)
    else none
  | [] => none

/-- JS `parseFloat`, on the modelled fragment; `none` is `NaN`. -/
def jsParseFloat (s : String) : Option ℚ :=
  let cs := s.data.dropWhile isJsWhitespace
  let signAndRest : ℚ × List Char :=
    match cs with
    | '-' :: r => (-1, r)
    | '+' :: r => (1, r)
    | r => (1, r)
  match parseUnsigned signAndRest.2 with
  | none => none
  | some (m, rest) =>
    match parseExponent rest with
    | none => some (signAndRest.1 * m)
    | some (neg, e) =>
      if neg then some (signAndRest.1 * m / ((10 : ℚ) ^ e))
      else some (signAndRest.1 * m * ((10 : ℚ) ^ e))

/-- Fractional digits of `r / d` (most significant first), up to `fuel`
digits; terminates early when the remainder vanishes. -/
def fracDigits : Nat → Nat → Nat → List Char
  | 0, _, _ => []
  | _ + 1, 0, _ => []
  | fuel + 1, r, d => Nat.digitChar (r * 10 / d) :: fracDigits fuel (r * 10 % d) d

/-- JS `String(number)` for a non-negative rational with a terminating
decimal expansion (the `Number`-to-string conversion on the fragment the
corpus uses: integers print with no decimal point, finite decimals print
their shortest expansion). -/
def jsNumToStringNonneg (q : ℚ) : String :=
  let ip := q.num.toNat / q.den
  let rem := q.num.toNat % q.den
  if rem = 0 then toString ip
  else toString ip ++ "." ++ String.mk (fracDigits 40 rem q.den)

/-- JS `String(number)` on the modelled fragment. -/
def jsNumToString (q : ℚ) : String :=
  if q < 0 then "-" ++ jsNumToStringNonneg (-q) else jsNumToStringNonneg q

/-! ### Data model (`src/lib/types.ts`) -/

/-- One decoded element of a test input: JS `number` (exact rational) or
`string`. -/
inductive Scalar where
  | num (q : ℚ)
  | str (s : String)
  deriving DecidableEq, Repr

/-- One decoded argument of `parseInput`: a scalar or an array of scalars
(the `unknown[]` elements produced by `run_mavka.ts` are exactly these). -/
inductive Arg where
  | scalar (v : Scalar)
  | list (elems : List Scalar)
  deriving DecidableEq, Repr

/-- `TestCase` of `src/lib/types.ts`. -/
structure TestCase where
  input : String
  expected : String
  args : List Arg
  deriving DecidableEq, Repr

/-- `TestResult` of `src/lib/types.ts`. -/
structure TestResult where
  passed : Bool
  input : String
  expected : String
  actual : String
  deriving DecidableEq, Repr

/-! ### `parseTestsPlain` (`src/lib/run_mavka.ts`, lines 66-84)

The line regex `/^(.+?)\s*->\s*(.+)$/` is embedded by its operational
meaning on the backtracking engine.  The dot matches any character except
a line terminator, `\s` matches every whitespace character including line
terminators, and `$` (no `m` flag) matches only end of input.  The
lazily-growing first group makes the engine try the occurrences of `->`
left to right; the arrow at position `j ≥ 1` completes a match iff

* the prefix before the arrow is *reachable*: the prefix minus its
  trailing whitespace run (which `\s*` absorbs) is terminator-free, and
  the prefix's first character — the mandatory first dot of `(.+?)` — is
  not a terminator (`leftOk`); and
* the suffix after the arrow is *acceptable*: its maximal terminator-free
  suffix (all that `(.+)$` can cover) is non-empty and everything before
  that suffix lies inside the leading whitespace run absorbed by `\s*`
  (`rightOk`).

In particular a line such as `"a -> b\r"` — every non-final line of a
CRLF spec file after `split('\n')` — has no match and is silently
dropped.  `arrowSplitAux` returns the raw prefix and suffix around the
matched arrow; they are trim-equal to the engine's two capture groups
(the difference is whitespace that `\s*` absorbed), and both are
necessarily non-empty, so the source's falsy-group check never fires. -/

/-- Reachability of the text before a candidate arrow for `(.+?)\s*`. -/
def leftOk : List Char → Bool
  | [] => false
  | c :: rest => !isLineTerm c && (dropTrailingWs (c :: rest)).all (fun d => !isLineTerm d)

/-- Acceptability of the text after a candidate arrow for `\s*(.+)$`. -/
def rightOk (tail : List Char) : Bool :=
  !((tail.reverse.takeWhile (fun c => !isLineTerm c)).reverse.isEmpty) &&
    (tail.take (tail.length -
      (tail.reverse.takeWhile (fun c => !isLineTerm c)).reverse.length)).all isJsWhitespace

def arrowSplitAux (acc : List Char) : List Char → Option (List Char × List Char)
  | '-' :: '>' :: tail =>
    if leftOk acc.reverse = true ∧ rightOk tail = true then some (acc.reverse, tail)
    else arrowSplitAux ('>' :: '-' :: acc) tail
  | c :: rest => arrowSplitAux (c :: acc) rest
  | [] => none

/-! ### `parseInput` (`src/lib/run_mavka.ts`, lines 87-128) -/

/-- The per-element rule `parseFloat(s.trim())`, string on `NaN`. -/
def decodeElem (cs : List Char) : Scalar :=
  let t := jsTrimChars cs
  match jsParseFloat (String.mk t) with
  | some n => Scalar.num n
  | none => Scalar.str (String.mk t)

/-- Decode the inner content of a bracketed list `[ ... ]` (already
stripped of the brackets and trimmed). -/
def decodeListInner (inner : List Char) : List Scalar :=
  (splitOnChar ',' inner).map decodeElem

/-- The mixed regex `/^(.+?),\s*(\[.+\])$/`: the first comma at index `≥ 1`
with a terminator-free prefix (the dots of `(.+?)` cannot cross a line
terminator) whose whitespace-skipped suffix is a bracket-delimited block
reaching the end of the string, with at least one inner character, all of
them terminator-free (the dots of `\[.+\]`). -/
def bracketBlock (r : List Char) : Bool :=
  match r with
  | '[' :: rest =>
    decide (2 ≤ rest.length) && (r.getLast? == some ']') &&
      rest.dropLast.all (fun c => !isLineTerm c)
  | _ => false

def mixed1Aux (acc : List Char) : List Char → Option (List Char × List Char)
  | ',' :: rest =>
    if acc = [] then mixed1Aux [','] rest
    else
      let r := rest.dropWhile isJsWhitespace
      if bracketBlock r then some (acc.reverse, r)
      else mixed1Aux (',' :: acc) rest
  | c :: rest => if isLineTerm c then none else mixed1Aux (c :: acc) rest
  | [] => none

/-- The mixed regex `/^(\[.+\]),\s*(.+)$/`: the greedy inner `.+` selects
the last `],` whose bracket sits at index `≥ 2`, whose prefix is
terminator-free (the dots of `\[.+\]`), and whose comma is followed by an
acceptable `\s*(.+)$` suffix (`rightOk`); the caller checks the leading
`[`. -/
def mixed2Aux (pre : List Char) : List Char → Option (List Char × List Char)
  | ']' :: ',' :: tail =>
    match mixed2Aux (',' :: ']' :: pre) tail with
    | some res => some res
    | none =>
      if 2 ≤ pre.length ∧ pre.all (fun c => !isLineTerm c) = true ∧ rightOk tail = true then
        some ((']' :: pre).reverse, tail)
      else none
  | c :: rest => mixed2Aux (c :: pre) rest
  | [] => none

def mixedMatch (cs : List Char) : Option (List Char × List Char) :=
  match mixed1Aux [] cs with
  | some r => some r
  | none =>
    match cs with
    | '[' :: _ => mixed2Aux [] cs
    | _ => none

/-- Decode one part of a mixed match: bracketed list or scalar. -/
def decodePart (p : List Char) : Arg :=
  if listStartsWith ['['] p ∧ p.getLast? = some ']' then
    let inner := jsTrimChars ((p.drop 1).dropLast)
    if inner = [] then Arg.list []
    else Arg.list (decodeListInner inner)
  else
    match jsParseFloat (String.mk p) with
    | some n => Arg.scalar (Scalar.num n)
    | none => Arg.scalar (Scalar.str (String.mk p))

/-- `parseInput` of `run_mavka.ts`: decode an input expression by the fixed
precedence bracketed list / mixed value-and-array / comma-separated
scalars / single scalar. -/
def parseInput (input : String) : List Arg :=
  let cs := input.data
  if cs.head? = some '[' ∧ cs.getLast? = some ']' then
    let inner := jsTrimChars ((cs.drop 1).dropLast)
    if inner = [] then [Arg.list []]
    else [Arg.list (decodeListInner inner)]
  else
    match mixedMatch cs with
    | some (p1, p2) => [decodePart (jsTrimChars p1), decodePart (jsTrimChars p2)]
    | none =>
      if cs.contains ',' then
        (splitOnChar ',' cs).map (fun s => Arg.scalar (decodeElem s))
      else
        match jsParseFloat input with
        | some n => [Arg.scalar (Scalar.num n)]
        | none => [Arg.scalar (Scalar.str input)]

/-- One line of `parseTestsPlain`: skip blank lines and `#` comments, match
the arrow regex, build the `TestCase` (or drop the line silently). -/
def parseLine (line : List Char) : Option TestCase :=
  if jsTrimChars line = [] then none
  else if line.head? = some '#' then none
  else
    match arrowSplitAux [] line with
    | none => none
    | some (l, r) =>
      if l = [] ∨ r = [] then none
      else
        let inputStr := jsTrimChars l
        let expected := jsTrimChars r
        some { input := String.mk inputStr
               expected := String.mk expected
               args := parseInput (String.mk inputStr) }

/-- The accumulation loop of `parseTestsPlain`. -/
def parseTestsPlainLines : List (List Char) → List TestCase
  | [] => []
  | line :: rest =>
    match parseLine line with
    | none => parseTestsPlainLines rest
    | some tc => tc :: parseTestsPlainLines rest

/-- `parseTestsPlain` of `run_mavka.ts`: trim the whole text, split on
newlines, parse each line. -/
def parseTestsPlain (testContent : String) : List TestCase :=
  parseTestsPlainLines (splitOnChar '\n' (jsTrimChars testContent.data))

/-! ### `formatMavkaArgs` (`src/lib/run_mavka.ts`, lines 51-63) -/

/-- JS `String(x)` as applied by `Array.prototype.join` to an element:
numbers stringify, strings pass through unquoted. -/
def renderScalarJoin : Scalar → String
  | Scalar.num q => jsNumToString q
  | Scalar.str s => s

/-- Rendering of one argument in `formatMavkaArgs`: arrays via
`[${arg.join(', ')}]`, strings quoted, numbers as-is. -/
def formatOneArg : Arg → String
  | Arg.list elems => "[" ++ String.intercalate ", " (elems.map renderScalarJoin) ++ "]"
  | Arg.scalar (Scalar.str s) => "\"" ++ s ++ "\""
  | Arg.scalar (Scalar.num q) => jsNumToString q

/-- `formatMavkaArgs` of `run_mavka.ts`. -/
def formatMavkaArgs (args : List Arg) : String :=
  String.intercalate ", " (args.map formatOneArg)

/-! ### `testMavkaCode` (`src/lib/run_mavka.ts`, lines 4-49)

The external interpreter subprocess is a black box: it is a function from
the persisted script text to the pair (stdout, stderr). -/

/-- Consume `[0-9;]*m` (the tail of an ANSI color escape); `none` when the
escape is not of that shape. -/
def ansiConsume : List Char → Option (List Char)
  | [] => none
  | c :: rest =>
    if c = 'm' then some rest
    else if c.isDigit ∨ c = ';' then ansiConsume rest
    else none

theorem ansiConsume_length : ∀ l r, ansiConsume l = some r → r.length < l.length := by
  intro l
  induction l with
  | nil => intro r h; simp [ansiConsume] at h
  | cons c rest ih =>
    intro r h
    rw [ansiConsume] at h
    by_cases hm : c = 'm'
    · simp [hm] at h
      subst h
      simp
    · simp [hm] at h
      by_cases hd : c.isDigit = true ∨ c = ';'
      · simp [hd] at h
        have := ih r h
        simp
        omega
      · simp [hd] at h

/-- The scanning loop of `stripAnsi`, fuelled to keep the recursion
structural (one unit of fuel per character; `ansiConsume` only shortens
the list, so `fuel = length` always suffices and the `0, l` equation is
never reached from `stripAnsi`). -/
def stripAnsiGo : Nat → List Char → List Char
  | 0, l => l
  | _, [] => []
  | fuel + 1, c :: rest =>
    if c = '\x1b' then
      match rest with
      | '[' :: rest2 =>
        match ansiConsume rest2 with
        | some rest3 => stripAnsiGo fuel rest3
        | none => c :: stripAnsiGo fuel rest
      | _ => c :: stripAnsiGo fuel rest
    else c :: stripAnsiGo fuel rest

/-- The global replacement `replace(/\x1b\[[0-9;]*m/g, '')` stripping ANSI
color escapes from the interpreter's stdout. -/
def stripAnsi (l : List Char) : List Char := stripAnsiGo l.length l

/-- One iteration of the loop in `testMavkaCode`: build the script, run the
interpreter on it, normalize stdout, and judge the test case.  The `passed`
flag is the equality of normalized stdout with the expected text; the
`actual` field is replaced by an `ERROR:`-prefixed wrapper of stderr when
stderr is non-empty. -/
def execCase (interp : String → String × String) (code : String) (tc : TestCase) :
    TestResult :=
  let argsStr := formatMavkaArgs tc.args
  let script := code ++ "\n" ++ "друк(алгоритм(" ++ argsStr ++ "))"
  let io := interp script
  let actual := String.mk (stripAnsi (jsTrimChars io.1.data))
  { passed := actual == tc.expected
    input := tc.input
    expected := tc.expected
    actual := if io.2 ≠ "" then "ERROR: " ++ io.2 else actual }

/-- `testMavkaCode` of `run_mavka.ts`: parse the spec text and run every
test case (each in its own interpreter invocation). -/
def testMavkaCode (interp : String → String × String) (code : String)
    (testsPlain : String) : List TestResult :=
  (parseTestsPlain testsPlain).map (execCase interp code)

/-- The score computation `results.filter(el => el.passed).length /
results.length` of `src/index.ts` (lines 288-289): a JS number that is
`NaN` (modelled `none`) exactly when the result list is empty. -/
def computeScore (results : List TestResult) : Option ℚ :=
  if results.length = 0 then none
  else some ((results.countP (fun r => r.passed) : ℚ) / (results.length : ℚ))

/-! ### `extractCodeFromLLM` (`src/lib/extract_llm_code.ts`)

The three regexes are embedded by their operational meaning on a
backtracking engine searching for the leftmost match:

* ``/```(?:\w+)?\s*\n([\s\S]*?)\n```/`` — at each occurrence of a triple
  backtick, skip the maximal word run (the optional language tag), take the
  following whitespace run, which must contain a newline (the literal `\n`
  binds to the *last* newline of the run, because `\s*` is greedy), then
  the lazy group one runs to the first later occurrence of a newline
  followed by a triple backtick;
* `/<(\w+)>([\s\S]*?)<\/\1>/` — the first `<word>` opening tag that has a
  matching closing tag, whose lazy group two ends at the earliest close;
* ``/`([^`]+)`/`` — the first backtick followed by a non-empty
  backtick-free run and a closing backtick.

An empty capture group is falsy in JS, so a match whose group is empty
falls through to the next pattern. -/

/-- The backtick character, `0x60`. -/
def backtickChar : Char := '\x60'

/-- Does the list start with two backticks? -/
def twoBackticks : List Char → Bool
  | a :: b :: _ => a = backtickChar ∧ b = backtickChar
  | _ => false

/-- Is the list head a newline followed by a closing triple backtick? -/
def nlFence : List Char → Bool
  | '\n' :: a :: b :: c :: _ => a = backtickChar ∧ b = backtickChar ∧ c = backtickChar
  | _ => false

/-- Scan for the first `\n`-plus-triple-backtick boundary, accumulating the
lazy group one. -/
def closeScan (acc : List Char) : List Char → Option (List Char)
  | [] => none
  | c :: rest =>
    if nlFence (c :: rest) then some acc.reverse
    else closeScan (c :: acc) rest

/-- After the optional language word: the whitespace run must contain a
newline; the lazy group starts after the run's last newline (`\s*` is
greedy) and extends to the close fence. -/
def fenceAfterWs (afterWord : List Char) : Option (List Char) :=
  if (afterWord.takeWhile isJsWhitespace).contains '\n' then
    closeScan []
      (((afterWord.takeWhile isJsWhitespace).reverse.takeWhile (fun c => c ≠ '\n')).reverse ++
        afterWord.drop (afterWord.takeWhile isJsWhitespace).length)
  else none

/-- Try to complete a fenced-block match right after an opening triple
backtick: skip the maximal word run (the language tag), then match
`\s*\n` and the lazy body group. -/
def fenceBody (afterFence : List Char) : Option (List Char) :=
  fenceAfterWs (afterFence.dropWhile isWordChar)

/-- Find the leftmost complete fenced-block match; returns group one. -/
def findFence : List Char → Option (List Char)
  | [] => none
  | c :: rest =>
    if c = backtickChar ∧ twoBackticks rest then
      match fenceBody (rest.drop 2) with
      | some g => some g
      | none => findFence rest
    else findFence rest

/-- Scan for the closing tag `</w>`, accumulating the lazy group two. -/
def xmlClose (w : List Char) (acc : List Char) : List Char → Option (List Char)
  | [] => none
  | c :: rest =>
    if listStartsWith ('<' :: '/' :: (w ++ ['>'])) (c :: rest) then some acc.reverse
    else xmlClose w (c :: acc) rest

/-- Try to complete an XML-tag match right after an opening `<`. -/
def xmlHere (rest : List Char) : Option (List Char) :=
  let w := rest.takeWhile isWordChar
  let after := rest.drop w.length
  if w = [] then none
  else
    match after with
    | '>' :: content => xmlClose w [] content
    | _ => none

/-- Find the leftmost complete XML-style tag pair; returns group two. -/
def findXml : List Char → Option (List Char)
  | [] => none
  | c :: rest =>
    if c = '<' then
      match xmlHere rest with
      | some g => some g
      | none => findXml rest
    else findXml rest

/-- Find the first inline backtick span; returns the non-empty group. -/
def findInline : List Char → Option (List Char)
  | [] => none
  | c :: rest =>
    if c = backtickChar then
      let run := rest.takeWhile (fun d => d ≠ backtickChar)
      if run ≠ [] ∧ (rest.drop run.length).head? = some backtickChar then some run
      else findInline rest
    else findInline rest

/-- JS truthiness of a capture group: an empty capture falls through. -/
def nonEmptyOpt : Option (List Char) → Option (List Char)
  | some g => if g = [] then none else some g
  | none => none

/-- `extractCodeFromLLM` of `src/lib/extract_llm_code.ts`. -/
def extractCodeFromLLM (llmOutput : String) : String :=
  match nonEmptyOpt (findFence llmOutput.data) with
  | some g => String.mk (jsTrimChars g)
  | none =>
    match nonEmptyOpt (findXml llmOutput.data) with
    | some g => String.mk (jsTrimChars g)
    | none =>
      match nonEmptyOpt (findInline llmOutput.data) with
      | some g => String.mk (jsTrimChars g)
      | none => llmOutput

/-! ### `callAgent` and `AgentCallError` (`src/lib/call_agent.ts`)

The network is a black box: an `AgentOutcome` describes what the HTTP
exchange did (timed out, returned a non-2xx status, returned a body that
fails the zod shape check, or succeeded).  `callAgent` classifies every
failure as an `AgentCallError` — the error class that the phase
boundaries of the state machine recognize — while any other thrown value
is a plain error. -/

/-- What the agent HTTP exchange did. -/
inductive AgentOutcome where
  | timeout
  | httpError (status : Nat) (statusText : String)
  | malformed
  | ok (response : String) (ms : Nat)
  deriving DecidableEq, Repr

/-- A thrown JS value: either an `AgentCallError` or any other error. -/
inductive JsError where
  | agentCallError (msg : String)
  | plain (msg : String)
  deriving DecidableEq, Repr

/-- The success payload of `callAgent` (response text and latency). -/
structure AgentResponse where
  response : String
  ms : Nat
  deriving DecidableEq, Repr

/-- `callAgent` of `src/lib/call_agent.ts`: non-2xx statuses raise
`AgentCallError("HTTP error: ...")`; an abort raises
`AgentCallError("Timeout after 20 seconds")` (`agentTimeoutMs / 1000`);
a zod shape failure is re-wrapped as `AgentCallError("Agent call
failed")`. -/
def callAgent (o : AgentOutcome) : Except JsError AgentResponse :=
  match o with
  | AgentOutcome.timeout =>
    Except.error (JsError.agentCallError "Timeout after 20 seconds")
  | AgentOutcome.httpError status statusText =>
    Except.error (JsError.agentCallError ("HTTP error: " ++ toString status ++ " " ++ statusText))
  | AgentOutcome.malformed =>
    Except.error (JsError.agentCallError "Agent call failed")
  | AgentOutcome.ok response ms => Except.ok ⟨response, ms⟩

/-- The recoverable (AgentCallError-producing) outcomes. -/
def recoverableOutcome : AgentOutcome → Bool
  | AgentOutcome.ok _ _ => false
  | _ => true

/-! ### The run state machine (`src/index.ts`, refactored main runner)

The per-run pipeline `Init → [ConflictTeaching] → Generation → Extraction
→ Testing → [Feedback] → Terminal` from the `Testing` Listr task, with
`learnConflictingAlgorithm`, `callAgentAndTest` and `deliverFeedback` as
phase functions.  `Except.error` is an exception escaping the Listr task
(aborting the batch); `Except.ok` is a completed run. -/

/-- JS falsiness of an optional string field (`undefined` or `""`). -/
def jsFalsyStr : Option String → Bool
  | none => true
  | some s => s = ""

inductive RunType where
  | implement
  | review
  deriving DecidableEq, Repr

structure Algorithm where
  number : Nat
  name : String
  deriving DecidableEq, Repr

/-- One entry of `2_runs.json` (the Exercise Descriptor), with the fields
the state machine reads. -/
structure RunSpec where
  algorithm : Algorithm
  type : RunType
  mavkaCodeToReview : Option String
  isConflicted : Bool
  isAfterFeedback : Bool
  uuid : Option String
  uuidConflictingDocs : Option String
  uuidFeedback : Option String
  testCases : Option String
  algorithmPlain : Option String
  idealMavkaCode : Option String
  deriving DecidableEq, Repr

/-- Global configuration (`disableFeedback` of `src/conf.ts`). -/
structure RunConfig where
  disableFeedback : Bool
  deriving DecidableEq, Repr

/-- The environment of one run: what each external collaborator would do
(the glob scan, the prerequisite document, the three agent exchanges, the
interpreter, and the feedback generator). -/
structure RunEnv where
  conflictFiles : List String
  conflictFileText : String
  conflictAgent : AgentOutcome
  mainAgent : AgentOutcome
  interp : String → String × String
  feedbackText : String
  feedbackAgent : AgentOutcome

/-- Observable external calls made by a run, in order. -/
inductive PhaseEvent where
  | conflictCall
  | mainCall
  | feedbackGen
  | feedbackCall
  deriving DecidableEq, Repr

/-- Result of a teaching/feedback phase: success with latency, or a
recoverable failure message. -/
inductive PhaseResult where
  | ok (ms : Nat)
  | failed (error : String)
  deriving DecidableEq, Repr

/-- `learnConflictingAlgorithm`: the two precondition checks sit *outside*
the `try`, so they throw plain errors; inside the `try`, the glob-count
and empty-file checks also throw plain errors (the `catch` re-throws
anything that is not an `AgentCallError`), while a failing agent call is
converted to a phase failure. -/
def learnConflictingAlgorithm (run : RunSpec) (env : RunEnv) :
    Except JsError (PhaseResult × List PhaseEvent) :=
  if run.algorithm.number ≤ 100 then
    Except.error (JsError.plain
      ("Conflicting algorithm must have number > 100, got " ++ toString run.algorithm.number))
  else if jsFalsyStr run.uuidConflictingDocs then
    Except.error (JsError.plain
      ("Missing uuidConflictingDocs for run " ++ toString run.algorithm.number))
  else if env.conflictFiles.length ≠ 1 then
    Except.error (JsError.plain
      ("Expected exactly one file for algorithm " ++ toString run.algorithm.number ++
       ", found " ++ toString env.conflictFiles.length))
  else if env.conflictFileText = "" then
    Except.error (JsError.plain "Algorithm file is empty")
  else
    match callAgent env.conflictAgent with
    | Except.ok r => Except.ok (PhaseResult.ok r.ms, [PhaseEvent.conflictCall])
    | Except.error (JsError.agentCallError m) =>
      Except.ok (PhaseResult.failed m, [PhaseEvent.conflictCall])
    | Except.error (JsError.plain m) => Except.error (JsError.plain m)

/-- `constructPrompt`: the `review` kind requires the seed code (a missing
seed throws a plain error); the templates are the Ukrainian task prompts
of the source. -/
def constructPrompt (run : RunSpec) : Except JsError String :=
  match run.type with
  | RunType.implement =>
    Except.ok ("Напишіть код на мові програмування Мавка, який реалізовує " ++
      run.algorithm.name ++ ".\n\nВідповіддю має бути єдине повідомлення у форматі:\n" ++
      "```mavka\n<ваш код тут>\n``` без зайвих пояснень")
  | RunType.review =>
    match run.mavkaCodeToReview with
    | none =>
      Except.error (JsError.plain
        ("Missing mavkaCodeToReview for review run of algorithm " ++ toString run.algorithm.number))
    | some seed =>
      Except.ok ("Перегляньте потенційну реалізацію " ++ run.algorithm.name ++
        " мовою програмування Мавка.\n\nКод, що має реалізовувати цей алгоритм:\n```mavka\n" ++
        seed ++ "\n```\n\nВаше завдання: виправити будь-які помилки (якщо вони є) та вивести " ++
        "тільки фінальний код, що реалізує цей алгоритм мовою Мавка.\n\n" ++
        "Відповіддю має бути єдине повідомлення у форматі:\n```mavka\n<ваш код тут>\n```\n\n" ++
        "без зайвих пояснень")

/-- Result of the Generation+Extraction+Testing phase. -/
inductive CATResult where
  | success (code : String) (testResults : List TestResult) (score : Option ℚ) (ms : Nat)
  | failure (error : String)
  deriving DecidableEq, Repr

/-- `callAgentAndTest`: the missing-uuid check throws a plain error inside
the `try` (re-thrown by the boundary), an `AgentCallError` from the agent
call becomes a phase failure, then the pipeline extracts the code, runs
the tests (`run.private.testCases!` dereferences `undefined` and throws a
plain `TypeError` when absent) and computes the score. -/
def callAgentAndTest (run : RunSpec) (_prompt : String) (env : RunEnv) :
    Except JsError (CATResult × List PhaseEvent) :=
  if jsFalsyStr run.uuid then
    Except.error (JsError.plain ("Missing uuid for run " ++ toString run.algorithm.number))
  else
    match callAgent env.mainAgent with
    | Except.error (JsError.agentCallError m) =>
      Except.ok (CATResult.failure m, [PhaseEvent.mainCall])
    | Except.error (JsError.plain m) => Except.error (JsError.plain m)
    | Except.ok ar =>
      let code := extractCodeFromLLM ar.response
      match run.testCases with
      | none =>
        Except.error (JsError.plain
          "TypeError: undefined is not an object (evaluating testCases.split)")
      | some tcText =>
        let results := testMavkaCode env.interp code tcText
        Except.ok (CATResult.success code results (computeScore results) ar.ms,
                   [PhaseEvent.mainCall])

/-- `deliverFeedback`: the three missing-field checks sit outside the
`try` (plain errors); the feedback generator is invoked, the composed
message is sent to the agent, and an `AgentCallError` is converted to a
phase failure. -/
def deliverFeedback (run : RunSpec) (code : String) (env : RunEnv) :
    Except JsError (PhaseResult × List PhaseEvent) :=
  if jsFalsyStr run.algorithmPlain then
    Except.error (JsError.plain ("Missing algorithmPlain for run " ++ toString run.algorithm.number))
  else if jsFalsyStr run.idealMavkaCode then
    Except.error (JsError.plain ("Missing idealMavkaCode for run " ++ toString run.algorithm.number))
  else if jsFalsyStr run.uuidFeedback then
    Except.error (JsError.plain ("Missing uuidFeedback for run " ++ toString run.algorithm.number))
  else
    let _feedbackMsg := "Раніше вам було поставлено завдання реалізувати " ++
      run.algorithm.name ++ " мовою програмування Мавка.\n\nВаш код:\n```mavka\n" ++ code ++
      "\n```\n\nНижче наведено експертний відгук щодо вашої реалізації:\n\n" ++ env.feedbackText
    match callAgent env.feedbackAgent with
    | Except.ok r => Except.ok (PhaseResult.ok r.ms, [PhaseEvent.feedbackGen, PhaseEvent.feedbackCall])
    | Except.error (JsError.agentCallError m) =>
      Except.ok (PhaseResult.failed m, [PhaseEvent.feedbackGen, PhaseEvent.feedbackCall])
    | Except.error (JsError.plain m) => Except.error (JsError.plain m)

/-- The record pushed to `ctx.testResults` (the batch collection) when the
Testing phase completes. -/
structure PushedRecord where
  code : String
  testResults : List TestResult
  score : Option ℚ
  deriving DecidableEq, Repr

/-- The observable result of one completed run: the pushed record (if
any), the error status marker of the run span (if any), and the external
calls made. -/
structure RunResult where
  pushed : Option PushedRecord
  failedStatus : Option String
  events : List PhaseEvent
  deriving DecidableEq, Repr

/-- The JS comparison `score < 1` (false for `NaN`). -/
def scoreLtOne : Option ℚ → Bool
  | some q => decide (q < 1)
  | none => false

/-- The JS comparison `score === 0` (false for `NaN`). -/
def scoreIsZero : Option ℚ → Bool
  | some q => decide (q = 0)
  | none => false

/-- The terminal span status: score 0 is flagged as an error marker. -/
def finalStatus (score : Option ℚ) : Option String :=
  if scoreIsZero score then some "Score is 0" else none

/-- The conditional Feedback phase and the terminal status, entered with
the already-pushed record. -/
def runFeedbackStage (cfg : RunConfig) (run : RunSpec) (env : RunEnv)
    (rec : PushedRecord) (evts : List PhaseEvent) : Except JsError RunResult :=
  if cfg.disableFeedback = false ∧ run.isAfterFeedback = false ∧ scoreLtOne rec.score = true then
    match deliverFeedback run rec.code env with
    | Except.error e => Except.error e
    | Except.ok (PhaseResult.failed m, ev3) =>
      Except.ok ⟨some rec, some m, evts ++ ev3⟩
    | Except.ok (PhaseResult.ok _, ev3) =>
      Except.ok ⟨some rec, finalStatus rec.score, evts ++ ev3⟩
  else Except.ok ⟨some rec, finalStatus rec.score, evts⟩

/-- Generation, Extraction, Testing, then the conditional Feedback phase. -/
def runMainStage (cfg : RunConfig) (run : RunSpec) (env : RunEnv)
    (ev1 : List PhaseEvent) : Except JsError RunResult :=
  match constructPrompt run with
  | Except.error e => Except.error e
  | Except.ok prompt =>
    match callAgentAndTest run prompt env with
    | Except.error e => Except.error e
    | Except.ok (CATResult.failure m, ev2) => Except.ok ⟨none, some m, ev1 ++ ev2⟩
    | Except.ok (CATResult.success code results score _, ev2) =>
      runFeedbackStage cfg run env ⟨code, results, score⟩ (ev1 ++ ev2)

/-- The whole per-run state machine of the `Testing` Listr task. -/
def processRun (cfg : RunConfig) (run : RunSpec) (env : RunEnv) :
    Except JsError RunResult :=
  if run.isConflicted = true ∧ run.isAfterFeedback = false then
    match learnConflictingAlgorithm run env with
    | Except.error e => Except.error e
    | Except.ok (PhaseResult.failed m, ev1) => Except.ok ⟨none, some m, ev1⟩
    | Except.ok (PhaseResult.ok _, ev1) => runMainStage cfg run env ev1
  else runMainStage cfg run env []

/-- The sequential batch driver: each descriptor is processed in order; a
thrown (plain) error escapes the Listr task and aborts the whole batch,
while completed runs — failed or not — accumulate. -/
def processBatch (cfg : RunConfig) : List (RunSpec × RunEnv) → Except JsError (List RunResult)
  | [] => Except.ok []
  | p :: rest =>
    match processRun cfg p.1 p.2 with
    | Except.error e => Except.error e
    | Except.ok res =>
      match processBatch cfg rest with
      | Except.error e => Except.error e
      | Except.ok others => Except.ok (res :: others)

/-- Replace only the feedback collaborators of an environment. -/
def withFeedbackEnv (env : RunEnv) (ft : String) (fa : AgentOutcome) : RunEnv :=
  { env with feedbackText := ft, feedbackAgent := fa }

/-! ### The bounded-concurrency Scheduler

The test-mode runner (`src/index.ts`, PQueue section) drives the `K`
descriptors through `new PQueue({ concurrency: 4 })`.  PQueue itself is an
external library, so the queue discipline is modelled from the spec
§4.6-style as a small-step transition system: a task can start when fewer
than `W` tasks are in flight, and a task in flight can finish — with
success or failure — entering the completion log in completion order.
The *recording* of outcomes, however, is in-src: the runner's task body
pushes to the Aggregator collection `scores` (line 553) only on the
success path and rethrows on failure (line 565, and that runner has no
`AgentCallError` catch), so the Aggregator view of the completion log is
its restriction to successful runs (`aggregatorScores`). -/

/-- The worker budget `concurrency: 4` of the PQueue runner. -/
def workerBudget : Nat := 4

/-- One scheduled run: an identifier and whether the run will succeed. -/
structure SchedTask where
  id : Nat
  ok : Bool
  deriving DecidableEq, Repr

/-- Scheduler state: descriptors not yet started (in list order), runs in
flight, and the completion log — every run that has finished, failed or
not, in completion order. -/
structure SchedState where
  pending : List SchedTask
  running : List SchedTask
  done : List SchedTask
  deriving DecidableEq, Repr

/-- Small-step transitions of the bounded-concurrency queue with worker
budget `w`.  A `finish` step removes exactly the finishing task — whether
it succeeded or failed — and touches no sibling; the task enters the
completion log either way (the PQueue worker slot is freed even when the
task's promise rejects). -/
inductive SchedStep (w : Nat) : SchedState → SchedState → Prop
  | start (t : SchedTask) (p r d : List SchedTask) :
      r.length < w →
      SchedStep w ⟨t :: p, r, d⟩ ⟨p, t :: r, d⟩
  | finish (t : SchedTask) (p r₁ r₂ d : List SchedTask) :
      SchedStep w ⟨p, r₁ ++ t :: r₂, d⟩ ⟨p, r₁ ++ r₂, d ++ [t]⟩

/-- Reachability in the scheduler. -/
def SchedReach (w : Nat) : SchedState → SchedState → Prop :=
  Relation.ReflTransGen (SchedStep w)

/-- The initial state of a batch of `tasks`. -/
def schedInit (tasks : List SchedTask) : SchedState := ⟨tasks, [], []⟩

/-- The Aggregator collection: in the PQueue runner of `src/index.ts`,
`scores.push(score)` (line 553) sits on the success path only — a failing
run rethrows (line 565) before any push, with no `AgentCallError` catch in
that runner — so the Aggregator receives exactly the successful runs'
outcomes, in completion order. -/
def aggregatorScores (s : SchedState) : List SchedTask :=
  s.done.filter (fun t => t.ok)

section EvalSection
/- The Batteries rational operations are `@[irreducible]`, which blocks the
`decide`/`rfl` evaluation of concrete test-case parses; restore the default
transparency locally for the concrete evaluations below. -/
attribute [local semireducible] Rat.mul Rat.add Rat.sub Rat.inv

/-! ### Claim C1 — the Run Outcome score -/

/-- A sample passing Test Result. -/
def trPassSample : TestResult := ⟨true, "1", "2", "2"⟩

/-- A sample failing Test Result. -/
def trFailSample : TestResult := ⟨false, "1", "2", "3"⟩

/-- C1: the computed Run Outcome score is `P/N` for `N` results with `P`
passing — `1` when `P = N`, `0` when `P = 0 < N` — but on the empty result
set the code divides `0/0`, which in JS is `NaN` (modelled `none`), *not*
`0`: the claim's `N = 0` clause fails on the code. -/
theorem claim_c1_score :
    computeScore [] = none ∧
    computeScore [] ≠ some 0 ∧
    computeScore [trPassSample] = some 1 ∧
    computeScore [trFailSample] = some 0 ∧
    computeScore [trPassSample, trFailSample] = some (1 / 2) := by
  refine ⟨rfl, by simp [computeScore], by decide, by decide, by decide⟩

/-! ### Claim C2 — stderr handling of the Execution Adapter -/

/-- C2 counterexample: a Test Case whose interpreter writes `"5"` to
stdout and `"err"` to stderr, with expected text `"5"`: the resulting Test
Result has `passed = true` — the stdout comparison is *not* skipped when
stderr is non-empty (only the `actual` field is replaced by the `ERROR:`
wrapper), refuting the claim that `passed == false` regardless of stdout
content. -/
theorem claim_c2_counterexample :
    ("err" : String) ≠ "" ∧
    testMavkaCode (fun _ => ("5", "err")) "код" "1 -> 5" =
      [{ passed := true, input := "1", expected := "5", actual := "ERROR: err" }] := by
  exact ⟨by decide, by decide⟩

/-- C2 amended: whenever stderr is non-empty, the Test Result's `actual`
field is the `ERROR:`-prefixed stderr text, but `passed` is still the
strict equality of the normalized stdout with the expected text (the
comparison is not skipped; a run whose stdout matches passes even with
non-empty stderr). -/
theorem claim_c2_amended (code : String) (tc : TestCase) (so se : String) (h : se ≠ "") :
    (execCase (fun _ => (so, se)) code tc).actual = "ERROR: " ++ se ∧
    (execCase (fun _ => (so, se)) code tc).passed =
      (String.mk (stripAnsi (jsTrimChars so.data)) == tc.expected) := by
  constructor <;> simp [execCase, h]

/-- Witness for C2: the amended statement at a concrete test case. -/
theorem claim_c2_witness :
    (execCase (fun _ => ("5", "err")) "к" ⟨"1", "5", [Arg.scalar (Scalar.num 1)]⟩).actual
        = "ERROR: " ++ "err" ∧
    (execCase (fun _ => ("5", "err")) "к" ⟨"1", "5", [Arg.scalar (Scalar.num 1)]⟩).passed
        = (String.mk (stripAnsi (jsTrimChars ("5" : String).data)) == ("5" : String)) := by
  exact claim_c2_amended "к" ⟨"1", "5", [Arg.scalar (Scalar.num 1)]⟩ "5" "err" (by decide)

/-! ### Claim C5 — input-expression decoding precedence -/

/-- C5: decoding follows the fixed precedence — a bracket-delimited input
is always decoded as a single list argument (checked before the comma
split), so `"[1, 2, 3] -> 6"` yields one Test Case whose single argument
is the numeric list `[1, 2, 3]` with expected `"6"`, and `"5, 10 -> 15"`
yields one Test Case with the two scalar numeric arguments `5` and `10`. -/
theorem claim_c5_precedence :
    parseTestsPlain "[1, 2, 3] -> 6" =
      [{ input := "[1, 2, 3]", expected := "6",
         args := [Arg.list [Scalar.num 1, Scalar.num 2, Scalar.num 3]] }] ∧
    parseTestsPlain "5, 10 -> 15" =
      [{ input := "5, 10", expected := "15",
         args := [Arg.scalar (Scalar.num 5), Arg.scalar (Scalar.num 10)] }] ∧
    (∀ s : String, s.data.head? = some '[' → s.data.getLast? = some ']' →
      ∃ l, parseInput s = [Arg.list l]) := by
  refine ⟨by decide, by decide, ?_⟩
  intro s h1 h2
  unfold parseInput
  rw [if_pos ⟨h1, h2⟩]
  dsimp only
  split
  · exact ⟨[], rfl⟩
  · exact ⟨_, rfl⟩

/-- Witness for C5: the bracket-precedence clause at the concrete input
`"[1]"`. -/
theorem claim_c5_witness : ∃ l, parseInput "[1]" = [Arg.list l] :=
  claim_c5_precedence.2.2 "[1]" (by decide) (by decide)

/-! ### Claim C9 — argument formatting of the Execution Adapter -/

/-- C9 counterexample: a string element inside a list argument is rendered
*unquoted* by `arg.join(', ')` — `formatMavkaArgs` turns the single list
argument `["ціль"]` into `[ціль]`, not `["ціль"]` as the claim states. -/
theorem claim_c9_counterexample :
    formatMavkaArgs [Arg.list [Scalar.str "ціль"]] = "[ціль]" ∧
    formatMavkaArgs [Arg.list [Scalar.str "ціль"]] ≠ "[\"ціль\"]" := by
  exact ⟨by decide, by decide⟩

/-- C9 amended: `formatMavkaArgs` renders a list argument as `[a, b, c]`
via `join(', ')`, a top-level string argument quoted, and a number as-is —
but the elements *inside* a list render by JS `String()`, so string
elements appear bare (unquoted). -/
theorem claim_c9_amended :
    (∀ args, formatMavkaArgs args = String.intercalate ", " (args.map formatOneArg)) ∧
    (∀ elems, formatOneArg (Arg.list elems) =
      "[" ++ String.intercalate ", " (elems.map renderScalarJoin) ++ "]") ∧
    (∀ s, formatOneArg (Arg.scalar (Scalar.str s)) = "\"" ++ s ++ "\"") ∧
    (∀ q, formatOneArg (Arg.scalar (Scalar.num q)) = jsNumToString q) ∧
    (∀ s, renderScalarJoin (Scalar.str s) = s) :=
  ⟨fun _ => rfl, fun _ => rfl, fun _ => rfl, fun _ => rfl, fun _ => rfl⟩

end EvalSection

/-! ### Supporting lemmas about the state machine -/

/-- `callAgent` throws only `AgentCallError`s, never a plain error. -/
theorem callAgent_not_plain (o : AgentOutcome) (m : String) :
    callAgent o ≠ Except.error (JsError.plain m) := by
  cases o <;> simp [callAgent]

/-- The failures of `callAgent` are exactly the recoverable outcomes, and
they carry the distinguished `AgentCallError` class. -/
theorem callAgent_recoverable_iff (o : AgentOutcome) :
    recoverableOutcome o = true ↔
      ∃ m, callAgent o = Except.error (JsError.agentCallError m) := by
  cases o <;> simp [callAgent, recoverableOutcome]

/-- A completed ConflictTeaching phase performed exactly the conflict-docs
agent exchange. -/
theorem learnConflicting_events (run : RunSpec) (env : RunEnv) (x : PhaseResult)
    (ev : List PhaseEvent) (h : learnConflictingAlgorithm run env = Except.ok (x, ev)) :
    ev = [PhaseEvent.conflictCall] := by
  unfold learnConflictingAlgorithm at h
  split at h
  · exact absurd h (by simp)
  · split at h
    · exact absurd h (by simp)
    · split at h
      · exact absurd h (by simp)
      · split at h
        · exact absurd h (by simp)
        · split at h <;> simp_all

/-- A completed Generation/Testing phase performed exactly the primary
agent exchange. -/
theorem callAgentAndTest_events (run : RunSpec) (prompt : String) (env : RunEnv)
    (x : CATResult) (ev : List PhaseEvent)
    (h : callAgentAndTest run prompt env = Except.ok (x, ev)) :
    ev = [PhaseEvent.mainCall] := by
  unfold callAgentAndTest at h
  split at h
  · exact absurd h (by simp)
  · split at h <;> simp_all
    split at h <;> simp_all

/-- A completed Feedback phase performed exactly one feedback generation
and one feedback agent exchange. -/
theorem deliverFeedback_events (run : RunSpec) (code : String) (env : RunEnv)
    (x : PhaseResult) (ev : List PhaseEvent)
    (h : deliverFeedback run code env = Except.ok (x, ev)) :
    ev = [PhaseEvent.feedbackGen, PhaseEvent.feedbackCall] := by
  unfold deliverFeedback at h
  split at h
  · exact absurd h (by simp)
  · split at h
    · exact absurd h (by simp)
    · split at h
      · exact absurd h (by simp)
      · split at h <;> simp_all

/-- Feedback-call count of a run that pushed a record: the main stage adds
exactly one `feedbackCall` exactly when the feedback guard (feedback not
globally disabled, not a post-feedback retry, score strictly below one)
holds for the pushed score. -/
theorem runMainStage_count (cfg : RunConfig) (run : RunSpec) (env : RunEnv)
    (ev1 : List PhaseEvent) (r : RunResult) (rec : PushedRecord)
    (h : runMainStage cfg run env ev1 = Except.ok r) (hp : r.pushed = some rec) :
    r.events.count PhaseEvent.feedbackCall =
      ev1.count PhaseEvent.feedbackCall +
      (if cfg.disableFeedback = false ∧ run.isAfterFeedback = false ∧
          scoreLtOne rec.score = true then 1 else 0) := by
  unfold runMainStage at h
  split at h
  · exact absurd h (by simp)
  · split at h
    · exact absurd h (by simp)
    · rename_i heq
      have hev2 := callAgentAndTest_events _ _ _ _ _ heq
      subst hev2
      obtain ⟨rfl⟩ : r = ⟨none, _, _⟩ := by
        cases h; rfl
      simp at hp
    · rename_i code results score ms ev2 heq
      have hev2 := callAgentAndTest_events _ _ _ _ _ heq
      subst hev2
      unfold runFeedbackStage at h
      split at h
      · rename_i hcond
        split at h
        · exact absurd h (by simp)
        · rename_i m ev3 heq2
          have hev3 := deliverFeedback_events _ _ _ _ _ heq2
          subst hev3
          cases h
          simp at hp
          subst hp
          simp [hcond, List.count_append, List.count_cons, List.count_nil]
        · rename_i ms2 ev3 heq2
          have hev3 := deliverFeedback_events _ _ _ _ _ heq2
          subst hev3
          cases h
          simp at hp
          subst hp
          simp [hcond, List.count_append, List.count_cons, List.count_nil]
      · rename_i hcond
        cases h
        simp at hp
        subst hp
        simp only [if_neg hcond]
        simp [List.count_append, List.count_cons, List.count_nil]

/-- Feedback-call count of a run that pushed nothing: the main stage adds
no `feedbackCall`. -/
theorem runMainStage_count_none (cfg : RunConfig) (run : RunSpec) (env : RunEnv)
    (ev1 : List PhaseEvent) (r : RunResult)
    (h : runMainStage cfg run env ev1 = Except.ok r) (hp : r.pushed = none) :
    r.events.count PhaseEvent.feedbackCall = ev1.count PhaseEvent.feedbackCall := by
  unfold runMainStage at h
  split at h
  · exact absurd h (by simp)
  · split at h
    · exact absurd h (by simp)
    · rename_i heq
      have hev2 := callAgentAndTest_events _ _ _ _ _ heq
      subst hev2
      cases h
      simp [List.count_append, List.count_cons, List.count_nil]
    · rename_i code results score ms ev2 heq
      unfold runFeedbackStage at h
      split at h
      · split at h
        · exact absurd h (by simp)
        · cases h; simp at hp
        · cases h; simp at hp
      · cases h; simp at hp

/-- The events of the main stage extend `ev1` only with Generation and
Feedback events — never with a `conflictCall`. -/
theorem runMainStage_events (cfg : RunConfig) (run : RunSpec) (env : RunEnv)
    (ev1 : List PhaseEvent) (r : RunResult)
    (h : runMainStage cfg run env ev1 = Except.ok r) :
    ∃ ev', r.events = ev1 ++ ev' ∧ PhaseEvent.conflictCall ∉ ev' := by
  unfold runMainStage at h
  split at h
  · exact absurd h (by simp)
  · split at h
    · exact absurd h (by simp)
    · rename_i heq
      have hev2 := callAgentAndTest_events _ _ _ _ _ heq
      subst hev2
      cases h
      exact ⟨[PhaseEvent.mainCall], rfl, by simp⟩
    · rename_i code results score ms ev2 heq
      have hev2 := callAgentAndTest_events _ _ _ _ _ heq
      subst hev2
      unfold runFeedbackStage at h
      split at h
      · split at h
        · exact absurd h (by simp)
        · rename_i m ev3 heq2
          have hev3 := deliverFeedback_events _ _ _ _ _ heq2
          subst hev3
          cases h
          exact ⟨[PhaseEvent.mainCall] ++ [PhaseEvent.feedbackGen, PhaseEvent.feedbackCall],
                 by simp, by simp⟩
        · rename_i ms2 ev3 heq2
          have hev3 := deliverFeedback_events _ _ _ _ _ heq2
          subst hev3
          cases h
          exact ⟨[PhaseEvent.mainCall] ++ [PhaseEvent.feedbackGen, PhaseEvent.feedbackCall],
                 by simp, by simp⟩
      · cases h
        exact ⟨[PhaseEvent.mainCall], by simp, by simp⟩

/-- The environment projections that the non-feedback phases read are
untouched by `withFeedbackEnv`. -/
theorem learnConflicting_withFeedbackEnv (run : RunSpec) (env : RunEnv)
    (ft : String) (fa : AgentOutcome) :
    learnConflictingAlgorithm run (withFeedbackEnv env ft fa) =
      learnConflictingAlgorithm run env := rfl

theorem callAgentAndTest_withFeedbackEnv (run : RunSpec) (prompt : String)
    (env : RunEnv) (ft : String) (fa : AgentOutcome) :
    callAgentAndTest run prompt (withFeedbackEnv env ft fa) =
      callAgentAndTest run prompt env := rfl

/-- The pushed record of the feedback stage does not depend on the
feedback collaborators: the record is pushed before the exchange, and
only the status marker can change. -/
theorem runFeedbackStage_pushed (cfg : RunConfig) (run : RunSpec) (env : RunEnv)
    (rec : PushedRecord) (evts : List PhaseEvent) (ft : String) (fa : AgentOutcome) :
    (runFeedbackStage cfg run env rec evts).map RunResult.pushed =
      (runFeedbackStage cfg run (withFeedbackEnv env ft fa) rec evts).map RunResult.pushed := by
  unfold runFeedbackStage
  split
  · unfold deliverFeedback withFeedbackEnv
    dsimp only
    by_cases h1 : jsFalsyStr run.algorithmPlain = true
    · simp [h1]
    · by_cases h2 : jsFalsyStr run.idealMavkaCode = true
      · simp [h1, h2]
      · by_cases h3 : jsFalsyStr run.uuidFeedback = true
        · simp [h1, h2, h3]
        · simp only [h1, h2, h3, if_false]
          cases env.feedbackAgent <;> cases fa <;> simp [callAgent, Except.map]
  · rfl

/-- The pushed record of the main stage does not depend on the feedback
collaborators. -/
theorem runMainStage_pushed (cfg : RunConfig) (run : RunSpec) (env : RunEnv)
    (ev1 : List PhaseEvent) (ft : String) (fa : AgentOutcome) :
    (runMainStage cfg run env ev1).map RunResult.pushed =
      (runMainStage cfg run (withFeedbackEnv env ft fa) ev1).map RunResult.pushed := by
  unfold runMainStage
  simp only [callAgentAndTest_withFeedbackEnv]
  cases hcp : constructPrompt run
  · rfl
  · rename_i prompt
    dsimp only
    cases hct : callAgentAndTest run prompt env
    · rfl
    · rename_i p
      obtain ⟨x, ev2⟩ := p
      cases x
      · dsimp only
        exact runFeedbackStage_pushed ..
      · rfl

/-! ### Claim C3 — recoverable agent-call failures -/

/-- C3: every recoverable agent-call failure (timeout, non-2xx status,
malformed response shape) raises the distinct `AgentCallError` class —
`callAgent` never throws a plain error — each phase boundary
(ConflictTeaching, Generation/Testing, Feedback) catches it and converts
it into a failed outcome carrying the message and no score, a batch of
completed runs never aborts, and any other exception (here: a missing
`uuid`) propagates out of the phase uncaught. -/
theorem claim_c3_recoverable :
    (∀ o, recoverableOutcome o = true ↔
        ∃ m, callAgent o = Except.error (JsError.agentCallError m)) ∧
    (∀ o m, callAgent o ≠ Except.error (JsError.plain m)) ∧
    (∀ (run : RunSpec) (prompt : String) (env : RunEnv),
      recoverableOutcome env.mainAgent = true → jsFalsyStr run.uuid = false →
      ∃ m, callAgentAndTest run prompt env =
        Except.ok (CATResult.failure m, [PhaseEvent.mainCall])) ∧
    (∀ (cfg : RunConfig) (run : RunSpec) (env : RunEnv),
      run.isConflicted = false → run.type = RunType.implement →
      jsFalsyStr run.uuid = false → recoverableOutcome env.mainAgent = true →
      ∃ m, processRun cfg run env =
        Except.ok ⟨none, some m, [PhaseEvent.mainCall]⟩) ∧
    (∀ (run : RunSpec) (env : RunEnv),
      100 < run.algorithm.number → jsFalsyStr run.uuidConflictingDocs = false →
      env.conflictFiles.length = 1 → env.conflictFileText ≠ "" →
      recoverableOutcome env.conflictAgent = true →
      ∃ m, learnConflictingAlgorithm run env =
        Except.ok (PhaseResult.failed m, [PhaseEvent.conflictCall])) ∧
    (∀ (run : RunSpec) (code : String) (env : RunEnv),
      jsFalsyStr run.algorithmPlain = false → jsFalsyStr run.idealMavkaCode = false →
      jsFalsyStr run.uuidFeedback = false → recoverableOutcome env.feedbackAgent = true →
      ∃ m, deliverFeedback run code env =
        Except.ok (PhaseResult.failed m, [PhaseEvent.feedbackGen, PhaseEvent.feedbackCall])) ∧
    (∀ (cfg : RunConfig) (runs : List (RunSpec × RunEnv)),
      (∀ p ∈ runs, ∃ r, processRun cfg p.1 p.2 = Except.ok r) →
      ∃ rs, processBatch cfg runs = Except.ok rs ∧ rs.length = runs.length) ∧
    (∀ (run : RunSpec) (prompt : String) (env : RunEnv),
      jsFalsyStr run.uuid = true →
      ∃ m, callAgentAndTest run prompt env = Except.error (JsError.plain m)) := by
  refine ⟨callAgent_recoverable_iff, callAgent_not_plain, ?_, ?_, ?_, ?_, ?_, ?_⟩
  · intro run prompt env hrec huuid
    obtain ⟨m, hm⟩ := (callAgent_recoverable_iff _).mp hrec
    exact ⟨m, by simp [callAgentAndTest, huuid, hm]⟩
  · intro cfg run env hconf htype huuid hrec
    obtain ⟨m, hm⟩ := (callAgent_recoverable_iff _).mp hrec
    refine ⟨m, ?_⟩
    simp [processRun, hconf, runMainStage, constructPrompt, htype,
          callAgentAndTest, huuid, hm]
  · intro run env hnum hcd hfiles htext hrec
    obtain ⟨m, hm⟩ := (callAgent_recoverable_iff _).mp hrec
    refine ⟨m, ?_⟩
    simp [learnConflictingAlgorithm, Nat.not_le.mpr hnum, hcd, hfiles, htext, hm]
  · intro run code env h1 h2 h3 hrec
    obtain ⟨m, hm⟩ := (callAgent_recoverable_iff _).mp hrec
    refine ⟨m, ?_⟩
    simp [deliverFeedback, h1, h2, h3, hm]
  · intro cfg runs h
    induction runs with
    | nil => exact ⟨[], rfl, rfl⟩
    | cons p rest ih =>
      obtain ⟨r, hr⟩ := h p (List.mem_cons_self p rest)
      obtain ⟨rs, hrs, hlen⟩ := ih (fun q hq => h q (List.mem_cons_of_mem p hq))
      exact ⟨r :: rs, by simp [processBatch, hr, hrs], by simp [hlen]⟩
  · intro run prompt env huuid
    refine ⟨"Missing uuid for run " ++ toString run.algorithm.number, ?_⟩
    simp [callAgentAndTest, huuid]

/-! ### Claim C7 — the Feedback phase guard and frame property -/

/-- C7: a completed run performs exactly one feedback agent exchange
exactly when feedback is not globally disabled, the run is not a
post-feedback retry, and the computed score is strictly below one (a run
that pushed no record performs none); and the pushed record — in
particular its recorded score — never depends on the feedback
collaborators (the feedback exchange cannot change or recompute it). -/
theorem claim_c7_feedback :
    (∀ (cfg : RunConfig) (run : RunSpec) (env : RunEnv) (r : RunResult) (rec : PushedRecord),
      processRun cfg run env = Except.ok r → r.pushed = some rec →
      r.events.count PhaseEvent.feedbackCall =
        (if cfg.disableFeedback = false ∧ run.isAfterFeedback = false ∧
            scoreLtOne rec.score = true then 1 else 0)) ∧
    (∀ (cfg : RunConfig) (run : RunSpec) (env : RunEnv) (r : RunResult),
      processRun cfg run env = Except.ok r → r.pushed = none →
      r.events.count PhaseEvent.feedbackCall = 0) ∧
    (∀ (cfg : RunConfig) (run : RunSpec) (env : RunEnv) (ft : String) (fa : AgentOutcome),
      (processRun cfg run env).map RunResult.pushed =
        (processRun cfg run (withFeedbackEnv env ft fa)).map RunResult.pushed) := by
  refine ⟨?_, ?_, ?_⟩
  · intro cfg run env r rec h hp
    unfold processRun at h
    split at h
    · split at h
      · exact absurd h (by simp)
      · cases h; simp at hp
      · rename_i heq
        have hev1 := learnConflicting_events _ _ _ _ heq
        subst hev1
        have := runMainStage_count cfg run env _ r rec h hp
        simpa using this
    · have := runMainStage_count cfg run env [] r rec h hp
      simpa using this
  · intro cfg run env r h hp
    unfold processRun at h
    split at h
    · split at h
      · exact absurd h (by simp)
      · rename_i m ev1 heq
        have hev1 := learnConflicting_events _ _ _ _ heq
        subst hev1
        cases h
        simp [List.count_cons]
      · rename_i heq
        have hev1 := learnConflicting_events _ _ _ _ heq
        subst hev1
        have := runMainStage_count_none cfg run env _ r h hp
        simpa using this
    · have := runMainStage_count_none cfg run env [] r h hp
      simpa using this
  · intro cfg run env ft fa
    unfold processRun
    rw [learnConflicting_withFeedbackEnv]
    split
    · cases learnConflictingAlgorithm run env
      · rfl
      · rename_i p
        obtain ⟨x, ev1⟩ := p
        cases x
        · exact runMainStage_pushed ..
        · rfl
    · exact runMainStage_pushed ..

/-! ### Claim C8 — the ConflictTeaching phase -/

/-- C8: the ConflictTeaching phase runs before Generation exactly when the
descriptor is conflicting and not a post-feedback retry (for a completed
run, the conflict-docs exchange is the very first event and happens once;
otherwise it never happens); and inside the phase, an algorithm number not
exceeding 100 or a missing conflicting-docs correlation id raises an
uncaught plain error that makes the whole batch fail rather than a per-run
failure. -/
theorem claim_c8_conflict :
    (∀ (cfg : RunConfig) (run : RunSpec) (env : RunEnv) (r : RunResult),
      processRun cfg run env = Except.ok r →
      ((run.isConflicted = true ∧ run.isAfterFeedback = false) →
        ∃ tl, r.events = PhaseEvent.conflictCall :: tl ∧ PhaseEvent.conflictCall ∉ tl) ∧
      (¬(run.isConflicted = true ∧ run.isAfterFeedback = false) →
        PhaseEvent.conflictCall ∉ r.events)) ∧
    (∀ (cfg : RunConfig) (run : RunSpec) (env : RunEnv),
      run.isConflicted = true → run.isAfterFeedback = false →
      run.algorithm.number ≤ 100 →
      ∃ m, processRun cfg run env = Except.error (JsError.plain m)) ∧
    (∀ (cfg : RunConfig) (run : RunSpec) (env : RunEnv),
      run.isConflicted = true → run.isAfterFeedback = false →
      100 < run.algorithm.number → jsFalsyStr run.uuidConflictingDocs = true →
      ∃ m, processRun cfg run env = Except.error (JsError.plain m)) ∧
    (∀ (cfg : RunConfig) (pre post : List (RunSpec × RunEnv)) (p : RunSpec × RunEnv)
        (e : JsError),
      processRun cfg p.1 p.2 = Except.error e →
      ∀ rs, processBatch cfg (pre ++ p :: post) ≠ Except.ok rs) := by
  refine ⟨?_, ?_, ?_, ?_⟩
  · intro cfg run env r h
    constructor
    · intro hcond
      unfold processRun at h
      rw [if_pos hcond] at h
      split at h
      · exact absurd h (by simp)
      · rename_i m ev1 heq
        have hev1 := learnConflicting_events _ _ _ _ heq
        subst hev1
        cases h
        exact ⟨[], rfl, by simp⟩
      · rename_i heq
        have hev1 := learnConflicting_events _ _ _ _ heq
        subst hev1
        obtain ⟨ev', hev, hni⟩ := runMainStage_events cfg run env _ r h
        exact ⟨ev', by simpa using hev, hni⟩
    · intro hcond
      unfold processRun at h
      rw [if_neg hcond] at h
      obtain ⟨ev', hev, hni⟩ := runMainStage_events cfg run env [] r h
      simpa [hev] using hni
  · intro cfg run env hc haf hnum
    refine ⟨"Conflicting algorithm must have number > 100, got " ++
      toString run.algorithm.number, ?_⟩
    simp [processRun, hc, haf, learnConflictingAlgorithm, hnum]
  · intro cfg run env hc haf hnum hcd
    refine ⟨"Missing uuidConflictingDocs for run " ++ toString run.algorithm.number, ?_⟩
    simp [processRun, hc, haf, learnConflictingAlgorithm, Nat.not_le.mpr hnum, hcd]
  · intro cfg pre post p e hp rs
    induction pre generalizing rs with
    | nil =>
      simp only [List.nil_append, processBatch, hp]
      exact fun h => by cases h
    | cons q pre' ih =>
      simp only [List.cons_append, processBatch]
      cases processRun cfg q.1 q.2
      · exact fun h => by cases h
      · cases hrest : processBatch cfg (pre' ++ p :: post)
        · exact fun h => by cases h
        · rename_i others
          exact absurd hrest (ih others)

/-! ### Claim C4 — the line discipline of `parseTestsPlain` -/

/-- Unfolding equation of `arrowSplitAux` on the empty list. -/
theorem arrowSplitAux_nil (acc : List Char) : arrowSplitAux acc [] = none := rfl

/-- Unfolding equation of `arrowSplitAux` at an arrow. -/
theorem arrowSplitAux_arrow (acc : List Char) (tail : List Char) :
    arrowSplitAux acc ('-' :: '>' :: tail) =
      if leftOk acc.reverse = true ∧ rightOk tail = true then some (acc.reverse, tail)
      else arrowSplitAux ('>' :: '-' :: acc) tail := rfl

/-- Unfolding equation of `arrowSplitAux` on a non-arrow head. -/
theorem arrowSplitAux_cons (acc : List Char) (c : Char) (rest : List Char)
    (h : ∀ (tail : List Char), ¬(c = '-' ∧ rest = '>' :: tail)) :
    arrowSplitAux acc (c :: rest) = arrowSplitAux (c :: acc) rest := by
  rw [arrowSplitAux.eq_def]
  split
  · rename_i tail heq
    injection heq with h1 h2
    exact absurd ⟨h1, h2⟩ (h tail)
  · rename_i c2 rest2 hside heq
    injection heq with h1 h2
    subst h1; subst h2
    rfl
  · rename_i heq
    exact absurd heq (by simp)

/-- A reachable left group is non-empty. -/
theorem leftOk_ne_nil (l : List Char) (h : leftOk l = true) : l ≠ [] := by
  intro he
  rw [he] at h
  exact absurd h (by decide)

/-- An acceptable right group is non-empty. -/
theorem rightOk_ne_nil (r : List Char) (h : rightOk r = true) : r ≠ [] := by
  intro he
  rw [he] at h
  exact absurd h (by decide)

/-- Structure of a successful arrow split: the input decomposes around a
literal `->`, with a non-empty raw group on each side. -/
theorem arrowSplitAux_some :
    ∀ (n : Nat) (cs : List Char), cs.length ≤ n → ∀ (acc l r : List Char),
    arrowSplitAux acc cs = some (l, r) →
    (∃ mid, l = acc.reverse ++ mid ∧ cs = mid ++ '-' :: '>' :: r) ∧ l ≠ [] ∧ r ≠ [] := by
  intro n
  induction n with
  | zero =>
    intro cs hlen acc l r h
    rw [List.length_eq_zero.mp (Nat.le_zero.mp hlen)] at h
    simp [arrowSplitAux_nil] at h
  | succ n ih =>
    rintro (_ | ⟨c, rest⟩) hlen acc l r h
    · simp [arrowSplitAux_nil] at h
    · have hstep : (∀ (tail : List Char), ¬(c = '-' ∧ rest = '>' :: tail)) →
          (∃ mid, l = acc.reverse ++ mid ∧ c :: rest = mid ++ '-' :: '>' :: r) ∧
            l ≠ [] ∧ r ≠ [] := by
        intro h'
        rw [arrowSplitAux_cons acc c rest h'] at h
        obtain ⟨⟨mid', hl, hcs⟩, hlne, hrne⟩ :=
          ih rest (by simp at hlen; omega) (c :: acc) l r h
        refine ⟨⟨c :: mid', ?_, ?_⟩, hlne, hrne⟩
        · simpa using hl
        · simp [hcs]
      rcases rest with _ | ⟨c2, rest2⟩
      · exact hstep (by intro tail hcon; simp at hcon)
      by_cases harrow : c = '-' ∧ c2 = '>'
      · obtain ⟨rfl, rfl⟩ := harrow
        rw [arrowSplitAux_arrow] at h
        by_cases hcond : leftOk acc.reverse = true ∧ rightOk rest2 = true
        · rw [if_pos hcond] at h
          simp only [Option.some.injEq, Prod.mk.injEq] at h
          obtain ⟨rfl, rfl⟩ := h
          exact ⟨⟨[], by simp, by simp⟩, leftOk_ne_nil _ hcond.1, rightOk_ne_nil _ hcond.2⟩
        · rw [if_neg hcond] at h
          obtain ⟨⟨mid', hl, hcs⟩, hlne, hrne⟩ :=
            ih rest2 (by simp at hlen; omega) ('>' :: '-' :: acc) l r h
          refine ⟨⟨'-' :: '>' :: mid', ?_, ?_⟩, hlne, hrne⟩
          · simpa using hl
          · simp [hcs]
      · refine hstep ?_
        intro tail hcon
        obtain ⟨hc, hr⟩ := hcon
        injection hr with hr1 hr2
        exact harrow ⟨hc, hr1⟩

/-- The accumulation loop is a `filterMap` over the lines, in order. -/
theorem parseTestsPlainLines_eq (ls : List (List Char)) :
    parseTestsPlainLines ls = ls.filterMap parseLine := by
  induction ls with
  | nil => rfl
  | cons l rest ih =>
    unfold parseTestsPlainLines
    cases hpl : parseLine l <;> simp [ih, List.filterMap_cons, hpl]

/-- C4: `parse` is total (it is a function into `List TestCase` — a
malformed line can only be dropped, never raise); it produces its Test
Cases by a `filterMap` over the trimmed text's lines in line order — one
Test Case per line on which the guard succeeds; the guard succeeds exactly
on the non-blank lines that do not start with `#` and match the arrow
pattern; and every line that yields a Test Case contains the separator
`->`. -/
theorem claim_c4_parse :
    (∀ s : String, parseTestsPlain s =
      (splitOnChar '\n' (jsTrimChars s.data)).filterMap parseLine) ∧
    (∀ line, (parseLine line).isSome ↔
      (jsTrimChars line ≠ [] ∧ line.head? ≠ some '#' ∧ (arrowSplitAux [] line).isSome)) ∧
    (∀ line tc, parseLine line = some tc →
      ∃ pre post, line = pre ++ '-' :: '>' :: post) := by
  refine ⟨?_, ?_, ?_⟩
  · intro s
    exact parseTestsPlainLines_eq _
  · intro line
    unfold parseLine
    by_cases h1 : jsTrimChars line = []
    · simp [h1]
    · by_cases h2 : line.head? = some '#'
      · simp [h1, h2]
      · simp only [if_neg h1, if_neg h2]
        cases hs : arrowSplitAux [] line with
        | none => simp [h1, h2, hs]
        | some p =>
          obtain ⟨l, r⟩ := p
          obtain ⟨-, hlne, hrne⟩ := arrowSplitAux_some line.length line le_rfl [] l r hs
          simp [h1, h2, hs, hlne, hrne]
  · intro line tc h
    unfold parseLine at h
    split at h
    · exact absurd h (by simp)
    · split at h
      · exact absurd h (by simp)
      · split at h
        · exact absurd h (by simp)
        · rename_i p l r heq
          obtain ⟨⟨mid, hl, hline⟩, -, -⟩ :=
            arrowSplitAux_some line.length line le_rfl [] l r heq
          exact ⟨mid, r, by simpa using hline⟩

def hasNlFence : List Char → Bool
  | [] => false
  | c :: rest => nlFence (c :: rest) || hasNlFence rest

theorem nlFence_cons_ne (c : Char) (l : List Char) (hc : c ≠ '\n') :
    nlFence (c :: l) = false := by
  rw [nlFence.eq_def]
  split
  · rename_i heq
    injection heq with h1 h2
    exact absurd h1 hc
  · rfl

theorem nlFence_boundary (post : List Char) :
    nlFence ('\n' :: backtickChar :: backtickChar :: backtickChar :: post) = true := by
  simp [nlFence]

theorem nlFence_append_false (c : Char) (rest post : List Char)
    (h : nlFence (c :: rest) = false) :
    nlFence ((c :: rest) ++
      '\n' :: backtickChar :: backtickChar :: backtickChar :: post) = false := by
  by_cases hc : c = '\n'
  · subst hc
    rcases rest with _ | ⟨a, _ | ⟨b, _ | ⟨d, rest'⟩⟩⟩
    · simp [nlFence]
      decide
    · simp [nlFence]
      intro
      decide
    · simp [nlFence]
      intro _ _
      decide
    · simpa [nlFence] using h
  · exact nlFence_cons_ne c _ hc

theorem closeScan_boundary (body : List Char) :
    ∀ (post acc : List Char), hasNlFence body = false →
    closeScan acc (body ++ '\n' :: backtickChar :: backtickChar :: backtickChar :: post) =
      some (acc.reverse ++ body) := by
  induction body with
  | nil =>
    intro post acc h
    simp only [List.nil_append, closeScan, if_pos (nlFence_boundary post), List.append_nil]
  | cons c rest ih =>
    intro post acc h
    have hh : nlFence (c :: rest) = false := by
      unfold hasNlFence at h
      exact (Bool.or_eq_false_iff.mp h).1
    have ht : hasNlFence rest = false := by
      unfold hasNlFence at h
      exact (Bool.or_eq_false_iff.mp h).2
    rw [List.cons_append, closeScan,
        if_neg (by rw [← List.cons_append, nlFence_append_false c rest post hh]; simp),
        ih post (c :: acc) ht]
    simp

theorem findFence_skip (pre : List Char) (l : List Char)
    (h : ∀ c ∈ pre, c ≠ backtickChar) :
    findFence (pre ++ l) = findFence l := by
  induction pre with
  | nil => rfl
  | cons c pre' ih =>
    rw [List.cons_append, findFence,
        if_neg (by simp [h c (List.mem_cons_self c pre')])]
    exact ih (fun d hd => h d (List.mem_cons_of_mem c hd))

theorem dropWhile_append_all (p : Char → Bool) (l t : List Char)
    (h : ∀ c ∈ l, p c = true) :
    List.dropWhile p (l ++ t) = List.dropWhile p t := by
  rw [List.dropWhile_append, if_pos]
  simp [List.dropWhile_eq_nil_iff.mpr h]

theorem fenceAfterWs_newline (X : List Char) (hX : X.takeWhile isJsWhitespace = []) :
    fenceAfterWs ('\n' :: X) = closeScan [] X := by
  unfold fenceAfterWs
  simp [List.takeWhile_cons, hX, (by decide : isJsWhitespace '\n' = true)]

theorem dropWhile_length_le (p : Char → Bool) (l : List Char) :
    (List.dropWhile p l).length ≤ l.length := by
  induction l with
  | nil => simp
  | cons c rest ih =>
    rw [List.dropWhile_cons]
    split
    · exact le_trans ih (by simp)
    · simp

theorem length_jsTrimChars_le (l : List Char) :
    (jsTrimChars l).length ≤ (List.dropWhile isJsWhitespace l).length := by
  unfold jsTrimChars
  simp only [List.length_reverse]
  calc (List.dropWhile isJsWhitespace (List.dropWhile isJsWhitespace l).reverse).length
      ≤ (List.dropWhile isJsWhitespace l).reverse.length := dropWhile_length_le _ _
    _ = (List.dropWhile isJsWhitespace l).length := List.length_reverse _

theorem trimmed_head (body : List Char) (h : jsTrimChars body = body) (hne : body ≠ []) :
    ∃ c body', body = c :: body' ∧ isJsWhitespace c = false := by
  cases body with
  | nil => exact absurd rfl hne
  | cons c body' =>
    refine ⟨c, body', rfl, ?_⟩
    by_contra hws
    have hws' : isJsWhitespace c = true := by
      cases hcc : isJsWhitespace c
      · exact absurd hcc hws
      · rfl
    have h1 : (List.dropWhile isJsWhitespace (c :: body')).length ≤ body'.length := by
      rw [List.dropWhile_cons, if_pos hws']
      exact dropWhile_length_le _ _
    have h2 := length_jsTrimChars_le (c :: body')
    have h3 := congrArg List.length h
    simp only [List.length_cons] at h3
    omega

theorem findFence_structured (pre lang body post : List Char)
    (hpre : ∀ c ∈ pre, c ≠ backtickChar)
    (hlang : ∀ c ∈ lang, isWordChar c = true)
    (hbody : ∃ c body', body = c :: body' ∧ isJsWhitespace c = false)
    (hno : hasNlFence body = false) :
    findFence (pre ++ backtickChar :: backtickChar :: backtickChar ::
      (lang ++ '\n' :: (body ++ '\n' :: backtickChar :: backtickChar :: backtickChar :: post)))
      = some body := by
  rw [findFence_skip pre _ hpre]
  rw [findFence, if_pos ⟨rfl, by simp [twoBackticks]⟩]
  have hfb : fenceBody
      ((backtickChar :: backtickChar ::
        (lang ++ '\n' :: (body ++ '\n' :: backtickChar :: backtickChar :: backtickChar :: post))).drop 2)
      = some body := by
    obtain ⟨c, body', hbeq, hc⟩ := hbody
    simp only [List.drop_succ_cons, List.drop_zero]
    unfold fenceBody
    rw [dropWhile_append_all _ lang _ hlang,
        List.dropWhile_cons, if_neg (by decide)]
    rw [fenceAfterWs_newline _ ?_]
    · exact closeScan_boundary body post [] hno
    · rw [hbeq, List.cons_append, List.takeWhile_cons, if_neg (by simp [hc])]
  rw [hfb]

theorem findFence_none (l : List Char) (h : ∀ c ∈ l, c ≠ backtickChar) :
    findFence l = none := by
  induction l with
  | nil => rfl
  | cons c rest ih =>
    rw [findFence, if_neg (by simp [h c (List.mem_cons_self c rest)])]
    exact ih (fun d hd => h d (List.mem_cons_of_mem c hd))

theorem findInline_none (l : List Char) (h : ∀ c ∈ l, c ≠ backtickChar) :
    findInline l = none := by
  induction l with
  | nil => rfl
  | cons c rest ih =>
    rw [findInline, if_neg (h c (List.mem_cons_self c rest))]
    exact ih (fun d hd => h d (List.mem_cons_of_mem c hd))

theorem findXml_none (l : List Char) (h : ∀ c ∈ l, c ≠ '<') :
    findXml l = none := by
  induction l with
  | nil => rfl
  | cons c rest ih =>
    rw [findXml, if_neg (h c (List.mem_cons_self c rest))]
    exact ih (fun d hd => h d (List.mem_cons_of_mem c hd))

theorem string_mk_data (s : String) : String.mk s.data = s := rfl

/-- C6: `extractCodeFromLLM` follows the strict priority fence, XML tag,
inline backtick, verbatim fallback.  On a text containing exactly one
fenced block (no backtick before the fence, a word-character language
tag, no close-fence sequence inside the body) the result is exactly the
fenced body, trimmed, with no fence markers remaining; on text with no
backtick and no `<` at all, the whole input is returned verbatim. -/
theorem claim_c6_extract :
    (∀ pre lang body post : String,
      (∀ c ∈ pre.data, c ≠ backtickChar) →
      (∀ c ∈ lang.data, isWordChar c = true) →
      hasNlFence body.data = false →
      jsTrimChars body.data = body.data →
      body ≠ "" →
      extractCodeFromLLM (pre ++ "```" ++ lang ++ "\n" ++ body ++ "\n```" ++ post) = body) ∧
    (∀ s : String, (∀ c ∈ s.data, c ≠ backtickChar ∧ c ≠ '<') →
      extractCodeFromLLM s = s) := by
  constructor
  · intro pre lang body post hpre hlang hno htrim hne
    have hdata : (pre ++ "```" ++ lang ++ "\n" ++ body ++ "\n```" ++ post).data =
        pre.data ++ backtickChar :: backtickChar :: backtickChar ::
          (lang.data ++ '\n' :: (body.data ++
            '\n' :: backtickChar :: backtickChar :: backtickChar :: post.data)) := by
      simp [String.data_append, backtickChar, List.append_assoc]
    have hbne : body.data ≠ [] := by
      intro hb
      exact hne (by cases body; simp_all)
    have hff := findFence_structured pre.data lang.data body.data post.data hpre hlang
      (trimmed_head body.data htrim hbne) hno
    unfold extractCodeFromLLM
    rw [hdata, hff]
    simp only [nonEmptyOpt]
    rw [if_neg hbne]
    dsimp only
    rw [htrim]
  · intro s h
    unfold extractCodeFromLLM
    rw [findFence_none s.data (fun c hc => (h c hc).1),
        findXml_none s.data (fun c hc => (h c hc).2),
        findInline_none s.data (fun c hc => (h c hc).1)]
    rfl

theorem sched_running_bound (w : Nat) (tasks : List SchedTask) (s : SchedState)
    (h : SchedReach w (schedInit tasks) s) : s.running.length ≤ w := by
  induction h with
  | refl => simp [schedInit]
  | tail hreach hstep ih =>
    cases hstep with
    | start t p r d hlt => simpa using hlt
    | finish t p r₁ r₂ d => simp at ih ⊢; omega

theorem sched_perm_invariant (w : Nat) (tasks : List SchedTask) (s : SchedState)
    (h : SchedReach w (schedInit tasks) s) :
    (s.pending ++ s.running ++ s.done).Perm tasks := by
  induction h with
  | refl => simp [schedInit]
  | tail hreach hstep ih =>
    refine List.Perm.trans ?_ ih
    rw [List.perm_iff_count]
    intro a
    cases hstep with
    | start t p r d hlt =>
      simp [List.count_append, List.count_cons]
      omega
    | finish t p r₁ r₂ d =>
      simp [List.count_append, List.count_cons]
      omega

theorem sched_finish_all (w : Nat) (r : List SchedTask) :
    ∀ (p d : List SchedTask), SchedReach w ⟨p, r, d⟩ ⟨p, [], d ++ r⟩ := by
  induction r with
  | nil =>
    intro p d
    simpa using Relation.ReflTransGen.refl
  | cons t r' ih =>
    intro p d
    refine Relation.ReflTransGen.head (SchedStep.finish t p [] r' d) ?_
    simpa [List.append_assoc] using ih p (d ++ [t])

theorem sched_drain (w : Nat) (hw : 1 ≤ w) (l : List SchedTask) :
    ∀ d, SchedReach w ⟨l, [], d⟩ ⟨[], [], d ++ l⟩ := by
  induction l with
  | nil =>
    intro d
    simpa using Relation.ReflTransGen.refl
  | cons t l' ih =>
    intro d
    refine Relation.ReflTransGen.head (SchedStep.start t l' [] d (by simpa using hw)) ?_
    refine Relation.ReflTransGen.head (SchedStep.finish t l' [] [] d) ?_
    simpa [List.append_assoc] using ih (d ++ [t])

/-- A successful task followed by a failed one. -/
def taskOkSample : SchedTask := ⟨0, true⟩

/-- A failing task. -/
def taskBadSample : SchedTask := ⟨1, false⟩

/-- C10 counterexample: a batch of `K = 2` descriptors, one of which
fails, drains completely — yet the Aggregator collection holds only the
one successful outcome, not all `K` exactly once: the failing run's
`queue.add` body rethrows before `scores.push`, recording nothing. -/
theorem claim_c10_counterexample :
    SchedReach workerBudget (schedInit [taskOkSample, taskBadSample])
      ⟨[], [], [taskOkSample, taskBadSample]⟩ ∧
    aggregatorScores ⟨[], [], [taskOkSample, taskBadSample]⟩ = [taskOkSample] ∧
    ([taskOkSample] : List SchedTask).length ≠
      ([taskOkSample, taskBadSample] : List SchedTask).length := by
  refine ⟨?_, by decide, by decide⟩
  refine Relation.ReflTransGen.head
    (SchedStep.start taskOkSample [taskBadSample] [] [] (by decide)) ?_
  refine Relation.ReflTransGen.head
    (SchedStep.finish taskOkSample [taskBadSample] [] [] []) ?_
  refine Relation.ReflTransGen.head
    (SchedStep.start taskBadSample [] [] [taskOkSample] (by decide)) ?_
  refine Relation.ReflTransGen.head
    (SchedStep.finish taskBadSample [] [] [] [taskOkSample]) ?_
  exact Relation.ReflTransGen.refl

/-- C10 amended: in bounded-concurrency mode with worker budget `w`, at
most `w` runs are in flight in every reachable scheduler state; when a
batch of `K` descriptors has fully drained, every run has completed
exactly once (the completion log is a permutation of the `K` tasks, in
completion order) and the Aggregator collection holds exactly the
*successful* runs' outcomes, once each, in completion order — a failed
run records nothing; and from any state the scheduler can always drain
completely — a finishing task, failed or not, removes only itself, so one
run's failure never cancels siblings. -/
theorem claim_c10_amended :
    (∀ (w : Nat) (tasks : List SchedTask) (s : SchedState),
      SchedReach w (schedInit tasks) s → s.running.length ≤ w) ∧
    (∀ (w : Nat) (tasks : List SchedTask) (s : SchedState),
      SchedReach w (schedInit tasks) s → s.pending = [] → s.running = [] →
      s.done.Perm tasks ∧
      (aggregatorScores s).Perm (tasks.filter (fun t => t.ok))) ∧
    (∀ (w : Nat) (s : SchedState), 1 ≤ w →
      ∃ s', SchedReach w s s' ∧ s'.pending = [] ∧ s'.running = [] ∧
        s'.done.Perm (s.done ++ s.running ++ s.pending)) := by
  refine ⟨sched_running_bound, ?_, ?_⟩
  · intro w tasks s h hp hr
    have hperm := sched_perm_invariant w tasks s h
    rw [hp, hr] at hperm
    simp only [List.nil_append] at hperm
    refine ⟨hperm, ?_⟩
    simp only [aggregatorScores]
    exact hperm.filter (fun t => t.ok)
  · intro w s hw
    obtain ⟨p, r, d⟩ := s
    refine ⟨⟨[], [], (d ++ r) ++ p⟩, ?_, rfl, rfl, List.Perm.refl _⟩
    exact Relation.ReflTransGen.trans (sched_finish_all w r p d) (sched_drain w hw p (d ++ r))

/-! ### Concrete witnesses -/

section WitnessSection
attribute [local semireducible] Rat.mul Rat.add Rat.sub Rat.inv

/-- Decidable equality on `Except`, for evaluating the state machine at
concrete inputs. -/
instance exceptDecEq {ε α : Type} [DecidableEq ε] [DecidableEq α] :
    DecidableEq (Except ε α) := fun a b =>
  match a, b with
  | Except.error e, Except.error e' => decidable_of_iff (e = e') (by simp)
  | Except.ok x, Except.ok x' => decidable_of_iff (x = x') (by simp)
  | Except.error _, Except.ok _ => isFalse (by simp)
  | Except.ok _, Except.error _ => isFalse (by simp)

/-- A sample Exercise Descriptor with every field present. -/
def runSampleA : RunSpec :=
  { algorithm := ⟨150, "алгоритм"⟩
    type := RunType.implement
    mavkaCodeToReview := none
    isConflicted := false
    isAfterFeedback := false
    uuid := some "u"
    uuidConflictingDocs := some "cd"
    uuidFeedback := some "f"
    testCases := some "1 -> 2"
    algorithmPlain := some "опис"
    idealMavkaCode := some "ідеал" }

/-- A sample environment whose primary agent call times out. -/
def envSampleTimeout : RunEnv :=
  { conflictFiles := ["1_learning/2_algorithms/150_x.md"]
    conflictFileText := "текст"
    conflictAgent := AgentOutcome.ok "ок" 1
    mainAgent := AgentOutcome.timeout
    interp := fun _ => ("", "")
    feedbackText := "фідбек"
    feedbackAgent := AgentOutcome.ok "ок" 2 }

/-- A sample environment where every collaborator succeeds (and every test
fails, so the score is `0`). -/
def envSampleOk : RunEnv :=
  { envSampleTimeout with mainAgent := AgentOutcome.ok "щось" 7 }

/-- Witness for C3: a timed-out primary call at a concrete descriptor is
caught and converted to a failure, and a missing `uuid` propagates as a
plain error. -/
theorem claim_c3_witness :
    (∃ m, callAgentAndTest runSampleA "п" envSampleTimeout =
      Except.ok (CATResult.failure m, [PhaseEvent.mainCall])) ∧
    (∃ m, callAgentAndTest { runSampleA with uuid := none } "п" envSampleTimeout =
      Except.error (JsError.plain m)) := by
  obtain ⟨-, -, h3, -, -, -, -, h8⟩ := claim_c3_recoverable
  exact ⟨h3 runSampleA "п" envSampleTimeout rfl rfl,
         h8 { runSampleA with uuid := none } "п" envSampleTimeout rfl⟩

/-- Witness for C4: the line `5 -> 25` yields a Test Case, hence contains
the separator. -/
theorem claim_c4_witness :
    ∃ pre post, ("5 -> 25").data = pre ++ '-' :: '>' :: post :=
  claim_c4_parse.2.2 ("5 -> 25").data
    ⟨"5", "25", [Arg.scalar (Scalar.num 5)]⟩ (by decide)

/-- Witness for C6: a concrete fenced response round-trips, and plain
text passes through verbatim. -/
theorem claim_c6_witness :
    extractCodeFromLLM
        ("Ось код:\n" ++ "```" ++ "mavka" ++ "\n" ++ "друк(5)" ++ "\n```" ++ "\nдякую")
      = "друк(5)" ∧
    extractCodeFromLLM "просто текст" = "просто текст" := by
  obtain ⟨h1, h2⟩ := claim_c6_extract
  exact ⟨h1 "Ось код:\n" "mavka" "друк(5)" "\nдякую"
          (by decide) (by decide) (by decide) (by decide) (by decide),
         h2 "просто текст" (by decide)⟩

def cfgSample : RunConfig := ⟨false⟩

/-- The Test Result of the sample run (stdout empty, expected `2`). -/
def trSample : TestResult := ⟨false, "1", "2", ""⟩

/-- The pushed record of the sample run. -/
def pushedSample : PushedRecord := ⟨"щось", [trSample], some 0⟩

/-- The full result of the sample run. -/
def runResultSample : RunResult :=
  ⟨some pushedSample, some "Score is 0",
   [PhaseEvent.mainCall, PhaseEvent.feedbackGen, PhaseEvent.feedbackCall]⟩

/-- Witness for C7: the sample run (score `0`, feedback enabled, first
attempt) makes exactly one feedback agent call and its guard evaluates
open. -/
theorem claim_c7_witness :
    processRun cfgSample runSampleA envSampleOk = Except.ok runResultSample ∧
    runResultSample.events.count PhaseEvent.feedbackCall = 1 ∧
    runResultSample.pushed = some pushedSample ∧
    (if cfgSample.disableFeedback = false ∧ runSampleA.isAfterFeedback = false ∧
        scoreLtOne pushedSample.score = true then 1 else 0) = 1 := by
  obtain ⟨h1, -, -⟩ := claim_c7_feedback
  have hrun : processRun cfgSample runSampleA envSampleOk = Except.ok runResultSample := by
    decide
  have hcount := h1 cfgSample runSampleA envSampleOk runResultSample pushedSample hrun (by decide)
  refine ⟨hrun, ?_, by decide, by decide⟩
  rw [hcount]
  decide

def runConflictSample : RunSpec := { runSampleA with isConflicted := true }

/-- The result of the conflicting sample run. -/
def runResultConflict : RunResult :=
  ⟨some pushedSample, some "Score is 0",
   [PhaseEvent.conflictCall, PhaseEvent.mainCall,
    PhaseEvent.feedbackGen, PhaseEvent.feedbackCall]⟩

/-- The result of the post-feedback sample run (ConflictTeaching and
Feedback both skipped). -/
def runResultSkip : RunResult :=
  ⟨some pushedSample, some "Score is 0", [PhaseEvent.mainCall]⟩

/-- Witness for C8: the conflicting sample descriptor (algorithm `150`)
teaches the conflicting algorithm first; the identical post-feedback
descriptor skips the phase; and algorithm `50` aborts with a plain
error. -/
theorem claim_c8_witness :
    (∃ tl r, processRun cfgSample runConflictSample envSampleOk = Except.ok r ∧
      r.events = PhaseEvent.conflictCall :: tl ∧ PhaseEvent.conflictCall ∉ tl) ∧
    (∃ r, processRun cfgSample { runConflictSample with isAfterFeedback := true }
        envSampleOk = Except.ok r ∧ PhaseEvent.conflictCall ∉ r.events) ∧
    (∃ m, processRun cfgSample
        { runConflictSample with algorithm := ⟨50, "алгоритм"⟩ } envSampleOk =
      Except.error (JsError.plain m)) := by
  obtain ⟨h1, h2, -, -⟩ := claim_c8_conflict
  refine ⟨?_, ?_, ?_⟩
  · have hr : processRun cfgSample runConflictSample envSampleOk =
        Except.ok runResultConflict := by decide
    obtain ⟨tl, htl, hni⟩ :=
      (h1 cfgSample runConflictSample envSampleOk runResultConflict hr).1 ⟨rfl, rfl⟩
    exact ⟨tl, runResultConflict, hr, htl, hni⟩
  · have hr : processRun cfgSample { runConflictSample with isAfterFeedback := true }
        envSampleOk = Except.ok runResultSkip := by decide
    refine ⟨runResultSkip, hr, ?_⟩
    exact (h1 cfgSample _ envSampleOk runResultSkip hr).2 (by simp)
  · exact h2 cfgSample _ envSampleOk rfl rfl (by decide)

/-- Witness for C10: a concrete three-task batch under the worker budget
`4` drains completely, every run completing exactly once. -/
theorem claim_c10_witness :
    ∃ s', SchedReach workerBudget ⟨[⟨0, true⟩, ⟨1, false⟩, ⟨2, true⟩], [], []⟩ s' ∧
      s'.pending = [] ∧ s'.running = [] ∧
      s'.done.Perm (([] : List SchedTask) ++ [] ++ [⟨0, true⟩, ⟨1, false⟩, ⟨2, true⟩]) :=
  claim_c10_amended.2.2 workerBudget ⟨[⟨0, true⟩, ⟨1, false⟩, ⟨2, true⟩], [], []⟩ (by decide)

end WitnessSection
